import Mathlib
/-!
Verification of the ElarisLab analytics toolkit: a shallow embedding of the
four pure utility functions (`calculate_risk_score`, `generate_activity_heatmap`,
`detect_volume_bursts`, `compute_shannon_entropy`) together with theorems
settling the specification claims about them.

Machine floats in the source are idealised: exact rational arithmetic (`ℚ`)
where only field operations occur, and real arithmetic (`ℝ`) where `log10` /
`log2` appear.  Python's `round(x, d)` (round-half-to-even at `d` decimal
places) is modelled exactly by `round_to`.
-/

/-- Round to the nearest integer, ties going to the even neighbour.
This is the rounding mode of Python's builtin `round`. -/
def roundHalfEven {α : Type} [LinearOrderedField α] [FloorRing α] (x : α) : ℤ :=
  if x - ⌊x⌋ < 1 / 2 then ⌊x⌋
  else if 1 / 2 < x - ⌊x⌋ then ⌊x⌋ + 1
  else if Even ⌊x⌋ then ⌊x⌋ else ⌊x⌋ + 1

/-- Python's `round(x, d)`: round half-to-even at `d` decimal places. -/
def round_to {α : Type} [LinearOrderedField α] [FloorRing α] (d : ℕ) (x : α) : α :=
  (roundHalfEven (x * 10 ^ d) : ℤ) / (10 : α) ^ d

/-!
## RiskScorer (`src/tasknexus/assistix/risk_scoring.py`)
-/

/-- `bin(flags_mask).count("1")`: number of set bits of a natural number. -/
def popcount (n : ℕ) : ℕ :=
  if h : n = 0 then 0 else n % 2 + popcount (n / 2)
termination_by n
decreasing_by exact Nat.div_lt_self (Nat.pos_of_ne_zero h) one_lt_two

/-- Volatility component: `min(abs(price_change_pct) / 10, 1) * 50`. -/
noncomputable def vol_score (price_change_pct : ℝ) : ℝ :=
  min (|price_change_pct| / 10) 1 * 50

/-- Liquidity component: `max(0.0, 30 - (math.log10(liquidity_usd) * 5))` when
`liquidity_usd > 0`, else `30.0`. -/
noncomputable def liq_score (liquidity_usd : ℝ) : ℝ :=
  if liquidity_usd > 0 then max 0 (30 - Real.logb 10 liquidity_usd * 5) else 30

/-- Flag penalty: `bin(flags_mask).count("1") * 5`. -/
noncomputable def flag_score (flags_mask : ℕ) : ℝ :=
  (popcount flags_mask : ℝ) * 5

/-- `calculate_risk_score` from `risk_scoring.py`:
`min(round(vol_score + liq_score + flag_score, 2), 100.0)`. -/
noncomputable def calculate_risk_score
    (price_change_pct liquidity_usd : ℝ) (flags_mask : ℕ) : ℝ :=
  min (round_to 2 (vol_score price_change_pct + liq_score liquidity_usd
    + flag_score flags_mask)) 100

/-!
## ActivityBucketer (`src/tasknexus/assistix/token_activity_heatmap.py`)

The plotting branch (`plot=True`) is an external side effect with no influence
on the returned data and is not part of the embedding.  `return_bins` only
selects whether the caller receives the second component of the result, so the
embedding returns the pair `(values, bins)` unconditionally.
-/

/-- Python's `int(x)`: truncation toward zero. -/
def ratTrunc (x : ℚ) : ℤ := if 0 ≤ x then ⌊x⌋ else ⌈x⌉

/-- `min(buckets - 1, int((t - t_min) / bucket_size))`, as a list index. -/
def bucket_index (buckets : ℕ) (t_min : ℤ) (bucket_size : ℚ) (t : ℤ) : ℕ :=
  (min ((buckets : ℤ) - 1) (ratTrunc (((t - t_min : ℤ) : ℚ) / bucket_size))).toNat

/-- One iteration of the `for t, c in zip(timestamps, counts)` loop:
`agg[idx] += c`. -/
def heatmap_step (buckets : ℕ) (t_min : ℤ) (bucket_size : ℚ)
    (agg : List ℤ) (tc : ℤ × ℤ) : List ℤ :=
  let idx := bucket_index buckets t_min bucket_size tc.1
  agg.set idx (agg.getD idx 0 + tc.2)

/-- `generate_activity_heatmap` from `token_activity_heatmap.py`, returning the
pair `(values, bins)`; the Python function returns `values` alone unless
`return_bins` is set. -/
def generate_activity_heatmap (timestamps counts : List ℤ)
    (buckets : ℕ) (normalize : Bool) : List ℚ × List (ℤ × ℤ) :=
  let t_min : ℤ := (timestamps.min?).getD 0
  let t_max : ℤ := (timestamps.max?).getD 0
  let span : ℤ := max (t_max - t_min) 1
  let bucket_size : ℚ := (span : ℚ) / (buckets : ℚ)
  let bins : List (ℤ × ℤ) := (List.range buckets).map fun i : ℕ =>
    (ratTrunc ((t_min : ℚ) + (i : ℚ) * bucket_size),
     ratTrunc ((t_min : ℚ) + ((i : ℚ) + 1) * bucket_size))
  let agg : List ℤ := (timestamps.zip counts).foldl
    (heatmap_step buckets t_min bucket_size) (List.replicate buckets 0)
  let values : List ℚ :=
    if normalize then
      let m0 : ℤ := (agg.max?).getD 0
      let m : ℤ := if m0 = 0 then 1 else m0
      agg.map fun v : ℤ => (v : ℚ) / (m : ℚ)
    else agg.map fun v : ℤ => (v : ℚ)
  (values, bins)

/-!
## BurstDetector (`src/tasknexus/assistix/token_burst_predictor.py`)

Float `+inf` (the `prev > 0` guard failing) is modelled by `⊤` in `WithTop ℚ`;
`round(inf, 4)` is `inf` in Python, matching `WithTop.map` leaving `⊤` fixed.
-/

/-- One burst event: `{index, previous, current, ratio}` (all stored as floats
by the source; `index` is `float(i)`). -/
structure BurstEvent where
  index : ℚ
  previous : ℚ
  current : ℚ
  ratio : WithTop ℚ
deriving DecidableEq, Repr

/-- `ratio = (curr / prev) if prev > 0 else float('inf')`. -/
def burst_ratio (prev curr : ℚ) : WithTop ℚ :=
  if 0 < prev then ((curr / prev : ℚ) : WithTop ℚ) else ⊤

/-- The event dict appended at index `i`: ratio is rounded to 4 decimal places
(`⊤`, i.e. `inf`, is left unchanged, as in Python). -/
def burst_event_at (volumes : List ℚ) (i : ℕ) : BurstEvent :=
  { index := (i : ℚ)
    previous := volumes.getD (i - 1) 0
    current := volumes.getD i 0
    ratio := (burst_ratio (volumes.getD (i - 1) 0) (volumes.getD i 0)).map (round_to 4) }

/-- One iteration of the `for i in range(1, len(volumes))` loop; the state is
`(events, last_idx)`. -/
def burst_step (volumes : List ℚ) (threshold_ratio : ℚ) (min_interval : ℤ)
    (st : List BurstEvent × ℤ) (i : ℕ) : List BurstEvent × ℤ :=
  if (threshold_ratio : WithTop ℚ) ≤ burst_ratio (volumes.getD (i - 1) 0) (volumes.getD i 0)
      ∧ min_interval ≤ (i : ℤ) - st.2 then
    (st.1 ++ [burst_event_at volumes i], (i : ℤ))
  else st

/-- `detect_volume_bursts` from `token_burst_predictor.py`. -/
def detect_volume_bursts (volumes : List ℚ) (threshold_ratio : ℚ)
    (min_interval : ℤ) : List BurstEvent :=
  ((List.range' 1 (volumes.length - 1)).foldl
    (burst_step volumes threshold_ratio min_interval) ([], -min_interval)).1

/-- Modelled from the spec: "Event emitted at position i iff
`ratio >= thresholdRatio` AND `(i - lastEventIndex) >= minInterval`, where
`lastEventIndex` starts at `-minInterval` and updates to `i` after each
emission", iterating positions `1..n-1`.  `burst_spec_go fuel i last` lists the
emitted positions from position `i` on with `fuel` positions remaining. -/
def burst_spec_go (volumes : List ℚ) (threshold_ratio : ℚ) (min_interval : ℤ) :
    ℕ → ℕ → ℤ → List ℕ
  | 0, _, _ => []
  | fuel + 1, i, last =>
    if (threshold_ratio : WithTop ℚ) ≤ burst_ratio (volumes.getD (i - 1) 0) (volumes.getD i 0)
        ∧ min_interval ≤ (i : ℤ) - last then
      i :: burst_spec_go volumes threshold_ratio min_interval fuel (i + 1) (i : ℤ)
    else burst_spec_go volumes threshold_ratio min_interval fuel (i + 1) last

/-- The value of `lastEventIndex` after processing, mirroring `burst_spec_go`. -/
def burst_last_go (volumes : List ℚ) (threshold_ratio : ℚ) (min_interval : ℤ) :
    ℕ → ℕ → ℤ → ℤ
  | 0, _, last => last
  | fuel + 1, i, last =>
    if (threshold_ratio : WithTop ℚ) ≤ burst_ratio (volumes.getD (i - 1) 0) (volumes.getD i 0)
        ∧ min_interval ≤ (i : ℤ) - last then
      burst_last_go volumes threshold_ratio min_interval fuel (i + 1) (i : ℤ)
    else burst_last_go volumes threshold_ratio min_interval fuel (i + 1) last

/-- Modelled from the spec: the positions at which events are emitted. -/
def burst_indices_spec (volumes : List ℚ) (threshold_ratio : ℚ)
    (min_interval : ℤ) : List ℕ :=
  burst_spec_go volumes threshold_ratio min_interval (volumes.length - 1) 1 (-min_interval)

/-!
## EntropyAnalyzer (`src/tasknexus/assistix/transaction_entropy_analyzer.py`)

The frequency dict `freq` maps each distinct address to its multiplicity; its
keys are the distinct addresses in order of first occurrence, i.e.
`addresses.dedup`, and `freq[a] = addresses.count a`.
-/

/-- `compute_shannon_entropy` from `transaction_entropy_analyzer.py`. -/
noncomputable def compute_shannon_entropy (addresses : List String) : ℝ :=
  if addresses.isEmpty then 0
  else
    round_to 4 ((addresses.dedup.map fun a : String =>
      -(((addresses.count a : ℕ) : ℝ) / ((addresses.length : ℕ) : ℝ)
        * Real.logb 2 (((addresses.count a : ℕ) : ℝ) / ((addresses.length : ℕ) : ℝ)))).sum)

/-!
## Theorems

Proof development: general lemmas about the embedded operations first, then
one theorem (with witness or counterexample where applicable) per claim.
-/

theorem roundHalfEven_intCast {α : Type} [LinearOrderedField α] [FloorRing α] (n : ℤ) :
    roundHalfEven ((n : α)) = n := by
  unfold roundHalfEven
  rw [Int.floor_intCast]
  simp

theorem roundHalfEven_mono {α : Type} [LinearOrderedField α] [FloorRing α]
    {x y : α} (h : x ≤ y) : roundHalfEven x ≤ roundHalfEven y := by
  unfold roundHalfEven
  have hf : ⌊x⌋ ≤ ⌊y⌋ := Int.floor_le_floor h
  rcases eq_or_lt_of_le hf with hfe | hflt
  · rw [← hfe]
    have hfr : x - (⌊x⌋ : α) ≤ y - (⌊x⌋ : α) := by linarith
    split_ifs <;> first | omega | linarith
  · have h1 : ⌊x⌋ + 1 ≤ ⌊y⌋ := hflt
    split_ifs <;> omega

theorem roundHalfEven_nonneg {α : Type} [LinearOrderedField α] [FloorRing α]
    {x : α} (h : 0 ≤ x) : 0 ≤ roundHalfEven x := by
  have h0 : roundHalfEven ((0 : ℤ) : α) ≤ roundHalfEven x := by
    apply roundHalfEven_mono; simpa using h
  rwa [roundHalfEven_intCast] at h0

theorem round_to_intCast {α : Type} [LinearOrderedField α] [FloorRing α] (d : ℕ) (n : ℤ) :
    round_to d ((n : α)) = (n : α) := by
  unfold round_to
  have hcast : (n : α) * 10 ^ d = ((n * 10 ^ d : ℤ) : α) := by push_cast; ring
  rw [hcast, roundHalfEven_intCast]
  have hpow : ((10 : α) ^ d) ≠ 0 := by positivity
  push_cast
  field_simp

theorem round_to_mono {α : Type} [LinearOrderedField α] [FloorRing α] (d : ℕ)
    {x y : α} (h : x ≤ y) : round_to d x ≤ round_to d y := by
  unfold round_to
  have hpow : (0 : α) < 10 ^ d := by positivity
  have hm : roundHalfEven (x * 10 ^ d) ≤ roundHalfEven (y * 10 ^ d) :=
    roundHalfEven_mono (by nlinarith)
  have : ((roundHalfEven (x * 10 ^ d) : ℤ) : α) ≤ ((roundHalfEven (y * 10 ^ d) : ℤ) : α) := by
    exact_mod_cast hm
  exact div_le_div_of_nonneg_right this hpow.le

theorem round_to_nonneg {α : Type} [LinearOrderedField α] [FloorRing α] (d : ℕ)
    {x : α} (h : 0 ≤ x) : 0 ≤ round_to d x := by
  have h0 : round_to d ((0 : ℤ) : α) ≤ round_to d x := round_to_mono d (by simpa using h)
  rw [round_to_intCast] at h0
  simpa using h0

theorem vol_score_nonneg (p : ℝ) : 0 ≤ vol_score p := by
  unfold vol_score
  have h1 : (0 : ℝ) ≤ min (|p| / 10) 1 := le_min (by positivity) zero_le_one
  nlinarith

theorem liq_score_nonneg (l : ℝ) : 0 ≤ liq_score l := by
  unfold liq_score
  split_ifs
  · exact le_max_left 0 _
  · norm_num

theorem flag_score_nonneg (m : ℕ) : 0 ≤ flag_score m := by
  unfold flag_score
  positivity

theorem calculate_risk_score_nonneg (p l : ℝ) (m : ℕ) :
    0 ≤ calculate_risk_score p l m := by
  unfold calculate_risk_score
  have h1 : 0 ≤ vol_score p + liq_score l + flag_score m := by
    have := vol_score_nonneg p
    have := liq_score_nonneg l
    have := flag_score_nonneg m
    linarith
  have h2 : (0 : ℝ) ≤ round_to 2 (vol_score p + liq_score l + flag_score m) :=
    round_to_nonneg 2 h1
  exact le_min h2 (by norm_num)

theorem calculate_risk_score_le_100 (p l : ℝ) (m : ℕ) :
    calculate_risk_score p l m ≤ 100 := min_le_right _ _

theorem popcount_zero : popcount 0 = 0 := by
  unfold popcount
  simp

theorem liq_score_antitone_on_pos {a b : ℝ} (ha : 0 < a) (hab : a ≤ b) :
    liq_score b ≤ liq_score a := by
  unfold liq_score
  have hb : 0 < b := lt_of_lt_of_le ha hab
  rw [if_pos ha, if_pos hb]
  have hlog : Real.logb 10 a ≤ Real.logb 10 b :=
    Real.logb_le_logb_of_le (by norm_num) ha hab
  have : 30 - Real.logb 10 b * 5 ≤ 30 - Real.logb 10 a * 5 := by linarith
  exact max_le_max le_rfl this

theorem calculate_risk_score_antitone_liquidity
    (p : ℝ) (m : ℕ) {a b : ℝ} (ha : 0 < a) (hab : a ≤ b) :
    calculate_risk_score p b m ≤ calculate_risk_score p a m := by
  unfold calculate_risk_score
  have hliq : liq_score b ≤ liq_score a := liq_score_antitone_on_pos ha hab
  have hsum : vol_score p + liq_score b + flag_score m
      ≤ vol_score p + liq_score a + flag_score m := by linarith
  exact min_le_min (round_to_mono 2 hsum) le_rfl

theorem calculate_risk_score_fifty : calculate_risk_score 50 0 0 = 80 := by
  unfold calculate_risk_score vol_score liq_score flag_score
  rw [popcount_zero]
  norm_num
  rw [show (80 : ℝ) = ((80 : ℤ) : ℝ) by norm_num, round_to_intCast]
  norm_num

theorem logb_ten_million : Real.logb 10 (1000000 : ℝ) = 6 := by
  rw [show (1000000 : ℝ) = 10 ^ (6 : ℕ) by norm_num, Real.logb_pow,
    Real.logb_self_eq_one (by norm_num)]
  norm_num

theorem calculate_risk_score_million : calculate_risk_score 0 1000000 0 = 0 := by
  unfold calculate_risk_score vol_score liq_score flag_score
  rw [popcount_zero, if_pos (by norm_num : (1000000 : ℝ) > 0), logb_ten_million]
  norm_num
  rw [show (0 : ℝ) = ((0 : ℤ) : ℝ) by norm_num, round_to_intCast]
  norm_num

theorem logb_hundredth : Real.logb 10 ((1 : ℝ) / 100) = -2 := by
  rw [show (1 : ℝ) / 100 = ((100 : ℝ))⁻¹ by norm_num, Real.logb_inv,
    show (100 : ℝ) = 10 ^ (2 : ℕ) by norm_num, Real.logb_pow,
    Real.logb_self_eq_one (by norm_num)]
  norm_num

theorem calculate_risk_score_zero_liq : calculate_risk_score 0 0 0 = 30 := by
  unfold calculate_risk_score vol_score liq_score flag_score
  rw [popcount_zero]
  norm_num
  rw [show (30 : ℝ) = ((30 : ℤ) : ℝ) by norm_num, round_to_intCast]
  norm_num

theorem calculate_risk_score_hundredth_liq : calculate_risk_score 0 (1 / 100) 0 = 40 := by
  unfold calculate_risk_score vol_score liq_score flag_score
  rw [popcount_zero, if_pos (by norm_num : (1 : ℝ) / 100 > 0), logb_hundredth]
  norm_num
  rw [show (40 : ℝ) = ((40 : ℤ) : ℝ) by norm_num, round_to_intCast]
  norm_num

theorem heatmap_step_length (buckets : ℕ) (t_min : ℤ) (bucket_size : ℚ)
    (agg : List ℤ) (tc : ℤ × ℤ) :
    (heatmap_step buckets t_min bucket_size agg tc).length = agg.length := by
  unfold heatmap_step
  simp

theorem heatmap_foldl_length (buckets : ℕ) (t_min : ℤ) (bucket_size : ℚ) :
    ∀ (pairs : List (ℤ × ℤ)) (agg : List ℤ),
      (pairs.foldl (heatmap_step buckets t_min bucket_size) agg).length = agg.length := by
  intro pairs
  induction pairs with
  | nil => intro agg; rfl
  | cons tc rest ih =>
    intro agg
    rw [List.foldl_cons, ih, heatmap_step_length]

theorem bucket_index_lt (buckets : ℕ) (hb : 0 < buckets)
    (t_min : ℤ) (bucket_size : ℚ) (t : ℤ) :
    bucket_index buckets t_min bucket_size t < buckets := by
  unfold bucket_index
  have h1 : min ((buckets : ℤ) - 1) (ratTrunc (((t - t_min : ℤ) : ℚ) / bucket_size))
      ≤ (buckets : ℤ) - 1 := min_le_left _ _
  omega

theorem sum_set_getD_add (c : ℤ) :
    ∀ (l : List ℤ) (i : ℕ), i < l.length →
      (l.set i (l.getD i 0 + c)).sum = l.sum + c := by
  intro l
  induction l with
  | nil => intro i hi; simp at hi
  | cons x xs ih =>
    intro i hi
    cases i with
    | zero => simp [List.sum_cons]; ring
    | succ j =>
      have hj : j < xs.length := by simpa using hi
      show (x :: xs.set j (xs.getD j 0 + c)).sum = (x :: xs).sum + c
      simp only [List.sum_cons, ih j hj]
      ring

theorem heatmap_foldl_sum (buckets : ℕ) (hb : 0 < buckets)
    (t_min : ℤ) (bucket_size : ℚ) :
    ∀ (pairs : List (ℤ × ℤ)) (agg : List ℤ), agg.length = buckets →
      (pairs.foldl (heatmap_step buckets t_min bucket_size) agg).sum
        = agg.sum + (pairs.map Prod.snd).sum := by
  intro pairs
  induction pairs with
  | nil => intro agg _; simp
  | cons tc rest ih =>
    intro agg hlen
    have hidx : bucket_index buckets t_min bucket_size tc.1 < agg.length := by
      rw [hlen]; exact bucket_index_lt buckets hb t_min bucket_size tc.1
    have hstep : (heatmap_step buckets t_min bucket_size agg tc).sum = agg.sum + tc.2 :=
      sum_set_getD_add tc.2 agg _ hidx
    have hsteplen : (heatmap_step buckets t_min bucket_size agg tc).length = buckets := by
      rw [heatmap_step_length, hlen]
    rw [List.foldl_cons, ih _ hsteplen, hstep]
    simp [List.sum_cons]
    ring

theorem sum_map_intCast (l : List ℤ) :
    (l.map fun v : ℤ => (v : ℚ)).sum = ((l.sum : ℤ) : ℚ) := by
  induction l with
  | nil => simp
  | cons x xs ih =>
    rw [List.map_cons, List.sum_cons, ih, List.sum_cons]
    push_cast
    ring

set_option maxRecDepth 4000 in
theorem heatmap_values_length (timestamps counts : List ℤ) (buckets : ℕ) (normalize : Bool) :
    ((generate_activity_heatmap timestamps counts buckets normalize).1).length = buckets := by
  unfold generate_activity_heatmap
  cases normalize <;>
    simp [heatmap_foldl_length]

theorem heatmap_raw_sum (timestamps counts : List ℤ) (buckets : ℕ) (hb : 0 < buckets) :
    ((generate_activity_heatmap timestamps counts buckets false).1).sum
      = ((((timestamps.zip counts).map Prod.snd).sum : ℤ) : ℚ) := by
  unfold generate_activity_heatmap
  simp only [Bool.false_eq_true, if_false]
  rw [sum_map_intCast, heatmap_foldl_sum buckets hb _ _ _ _ (by simp)]
  simp

theorem max?_map_intCast (l : List ℤ) :
    (l.map fun v : ℤ => (v : ℚ)).max? = l.max?.map fun v : ℤ => (v : ℚ) := by
  induction l with
  | nil => rfl
  | cons x xs ih =>
    simp only [List.map_cons, List.max?_cons, ih]
    cases hm : xs.max? with
    | none => simp
    | some m => simp [Int.cast_max]

theorem map_div_max_cast (agg : List ℤ) :
    (agg.map fun v : ℤ =>
        (v : ℚ) / (((if (agg.max?).getD 0 = 0 then 1 else (agg.max?).getD 0) : ℤ) : ℚ))
      = ((agg.map fun v : ℤ => (v : ℚ)).map fun v =>
          v / (if ((agg.map fun v : ℤ => (v : ℚ)).max?).getD 0 = 0 then 1
            else ((agg.map fun v : ℤ => (v : ℚ)).max?).getD 0)) := by
  rw [List.map_map, max?_map_intCast]
  cases h : agg.max? with
  | none =>
    have hnil : agg = [] := List.max?_eq_none_iff.mp h
    subst hnil
    simp
  | some m =>
    by_cases hm : m = 0
    · subst hm
      simp [Function.comp]
    · have hmq : ((m : ℚ)) ≠ 0 := Int.cast_ne_zero.mpr hm
      simp [Function.comp, hm]

theorem heatmap_empty_input (b : ℕ) (n : Bool) :
    (generate_activity_heatmap [] [] b n).1 = List.replicate b 0 ∧
      ((generate_activity_heatmap [] [] b n).2).length = b := by
  unfold generate_activity_heatmap
  constructor
  · cases n
    · simp
    · simp [List.map_replicate]
  · simp

theorem burst_foldl_eq (volumes : List ℚ) (t : ℚ) (m : ℤ) :
    ∀ (fuel i : ℕ) (es : List BurstEvent) (last : ℤ),
      (List.range' i fuel).foldl (burst_step volumes t m) (es, last)
        = (es ++ (burst_spec_go volumes t m fuel i last).map (burst_event_at volumes),
           burst_last_go volumes t m fuel i last) := by
  intro fuel
  induction fuel with
  | zero => intro i es last; simp [burst_spec_go, burst_last_go]
  | succ k ih =>
    intro i es last
    rw [show List.range' i (k + 1) = i :: List.range' (i + 1) k from rfl, List.foldl_cons]
    by_cases hc : (t : WithTop ℚ) ≤ burst_ratio (volumes.getD (i - 1) 0) (volumes.getD i 0)
        ∧ m ≤ (i : ℤ) - last
    · rw [show burst_step volumes t m (es, last) i
          = (es ++ [burst_event_at volumes i], (i : ℤ)) from if_pos hc,
        ih (i + 1) _ _]
      rw [burst_spec_go, burst_last_go, if_pos hc, if_pos hc]
      simp
    · rw [show burst_step volumes t m (es, last) i = (es, last) from if_neg hc,
        ih (i + 1) _ _]
      rw [burst_spec_go, burst_last_go, if_neg hc, if_neg hc]

theorem detect_volume_bursts_eq_spec (volumes : List ℚ) (t : ℚ) (m : ℤ) :
    detect_volume_bursts volumes t m
      = (burst_indices_spec volumes t m).map (burst_event_at volumes) := by
  unfold detect_volume_bursts burst_indices_spec
  rw [burst_foldl_eq]
  simp

theorem detect_volume_bursts_short (volumes : List ℚ) (t : ℚ) (m : ℤ)
    (h : volumes.length < 2) : detect_volume_bursts volumes t m = [] := by
  unfold detect_volume_bursts
  have h0 : volumes.length - 1 = 0 := by omega
  rw [h0]
  rfl

theorem compute_shannon_entropy_nil : compute_shannon_entropy [] = 0 := rfl

theorem compute_shannon_entropy_nonneg (addresses : List String) :
    0 ≤ compute_shannon_entropy addresses := by
  unfold compute_shannon_entropy
  split_ifs with he
  · exact le_rfl
  · apply round_to_nonneg
    apply List.sum_nonneg
    intro x hx
    rw [List.mem_map] at hx
    obtain ⟨a, ha, rfl⟩ := hx
    have hmem : a ∈ addresses := List.mem_dedup.mp ha
    have hcount : 0 < addresses.count a := List.count_pos_iff.mpr hmem
    have hlen : 0 < addresses.length := by
      cases addresses with
      | nil => simp at he
      | cons y ys => simp
    set p : ℝ := ((addresses.count a : ℕ) : ℝ) / ((addresses.length : ℕ) : ℝ) with hp
    have hp0 : 0 < p := by
      apply div_pos <;> exact_mod_cast ‹_›
    have hp1 : p ≤ 1 := by
      rw [hp, div_le_one (by exact_mod_cast hlen)]
      exact_mod_cast List.count_le_length a addresses
    have hlog : Real.logb 2 p ≤ 0 := Real.logb_nonpos (by norm_num) hp0.le hp1
    nlinarith

theorem round_to_natCast_real (d : ℕ) (n : ℕ) : round_to d ((n : ℝ)) = (n : ℝ) := by
  have h : round_to d (((n : ℤ) : ℝ)) = ((n : ℤ) : ℝ) := round_to_intCast d n
  push_cast at h
  exact h

theorem logb_two_half : Real.logb 2 ((1 : ℝ) / 2) = -1 := by
  rw [show (1 : ℝ) / 2 = ((2 : ℝ))⁻¹ by norm_num, Real.logb_inv,
    Real.logb_self_eq_one (by norm_num)]

theorem logb_two_quarter : Real.logb 2 ((1 : ℝ) / 4) = -2 := by
  rw [show (1 : ℝ) / 4 = ((4 : ℝ))⁻¹ by norm_num, Real.logb_inv,
    show (4 : ℝ) = 2 ^ (2 : ℕ) by norm_num, Real.logb_pow,
    Real.logb_self_eq_one (by norm_num)]
  norm_num

theorem compute_shannon_entropy_aaa : compute_shannon_entropy ["a", "a", "a"] = 0 := by
  unfold compute_shannon_entropy
  rw [if_neg (by decide : ¬((["a", "a", "a"] : List String).isEmpty = true))]
  rw [show (["a", "a", "a"] : List String).dedup = ["a"] from by decide]
  simp only [List.map_cons, List.map_nil, List.sum_cons, List.sum_nil]
  rw [show (["a", "a", "a"] : List String).count "a" = 3 from by decide]
  norm_num
  rw [show (0 : ℝ) = ((0 : ℕ) : ℝ) by norm_num, round_to_natCast_real]

theorem compute_shannon_entropy_ab : compute_shannon_entropy ["a", "b"] = 1 := by
  unfold compute_shannon_entropy
  rw [if_neg (by decide : ¬((["a", "b"] : List String).isEmpty = true))]
  rw [show (["a", "b"] : List String).dedup = ["a", "b"] from by decide]
  simp only [List.map_cons, List.map_nil, List.sum_cons, List.sum_nil]
  rw [show (["a", "b"] : List String).count "a" = 1 from by decide,
    show (["a", "b"] : List String).count "b" = 1 from by decide]
  norm_num [logb_two_half]
  rw [show (1 : ℝ) = ((1 : ℕ) : ℝ) by norm_num, round_to_natCast_real]

theorem compute_shannon_entropy_abcd :
    compute_shannon_entropy ["a", "b", "c", "d"] = 2 := by
  unfold compute_shannon_entropy
  rw [if_neg (by decide : ¬((["a", "b", "c", "d"] : List String).isEmpty = true))]
  rw [show (["a", "b", "c", "d"] : List String).dedup = ["a", "b", "c", "d"] from by decide]
  simp only [List.map_cons, List.map_nil, List.sum_cons, List.sum_nil]
  rw [show (["a", "b", "c", "d"] : List String).count "a" = 1 from by decide,
    show (["a", "b", "c", "d"] : List String).count "b" = 1 from by decide,
    show (["a", "b", "c", "d"] : List String).count "c" = 1 from by decide,
    show (["a", "b", "c", "d"] : List String).count "d" = 1 from by decide]
  norm_num [logb_two_quarter]
  rw [show (2 : ℝ) = ((2 : ℕ) : ℝ) by norm_num, round_to_natCast_real]

theorem zip_map_snd_of_length_eq :
    ∀ (ts cs : List ℤ), ts.length = cs.length → (ts.zip cs).map Prod.snd = cs := by
  intro ts
  induction ts with
  | nil =>
    intro cs h
    cases cs with
    | nil => rfl
    | cons c cs' => simp at h
  | cons t ts' ih =>
    intro cs h
    cases cs with
    | nil => simp at h
    | cons c cs' =>
      simp only [List.zip_cons_cons, List.map_cons]
      rw [ih cs' (by simpa using h)]

set_option maxRecDepth 4000 in
theorem heatmap_normalized_eq_raw_div (ts cs : List ℤ) (b : ℕ) :
    (generate_activity_heatmap ts cs b true).1 =
      ((generate_activity_heatmap ts cs b false).1).map
        (fun v => v /
          (if ((generate_activity_heatmap ts cs b false).1).max?.getD 0 = 0 then 1
            else ((generate_activity_heatmap ts cs b false).1).max?.getD 0)) := by
  unfold generate_activity_heatmap
  simp only [Bool.false_eq_true, if_false, if_true]
  exact map_div_max_cast _

/-!
## Claims
-/

/-- C1 (counterexample): `generate_activity_heatmap([], [])` does NOT return an
empty sequence: with the default `buckets=10` it returns ten `0.0` values, and
the bin list (when requested) has ten entries, not zero. -/
theorem claim_C1_counterexample :
    (generate_activity_heatmap [] [] 10 true).1 ≠ []
      ∧ (generate_activity_heatmap [] [] 10 true).1 = List.replicate 10 0
      ∧ ((generate_activity_heatmap [] [] 10 true).2).length = 10 := by
  have hv : (generate_activity_heatmap [] [] 10 true).1 = List.replicate 10 0 := by
    norm_num [generate_activity_heatmap, heatmap_step, bucket_index, ratTrunc,
      List.replicate, List.set]
  refine ⟨?_, hv, ?_⟩
  · rw [hv]
    simp
  · norm_num [generate_activity_heatmap]

/-- C1 (amended): `generate_activity_heatmap` called with empty `timestamps`
and `counts` returns a sequence of `buckets` zero values (not an empty one),
and a bin list with `buckets` entries when bins are requested.  (`0 < buckets`
because Python raises `ZeroDivisionError` for `buckets = 0`.) -/
theorem claim_C1_amended (b : ℕ) (n : Bool) (_hb : 0 < b) :
    (generate_activity_heatmap [] [] b n).1 = List.replicate b 0
      ∧ ((generate_activity_heatmap [] [] b n).2).length = b :=
  heatmap_empty_input b n

/-- Witness for C1 (amended) at `buckets = 10`, `normalize = true`. -/
theorem claim_C1_witness :
    0 < 10
      ∧ ((generate_activity_heatmap [] [] 10 true).1 = List.replicate 10 0
        ∧ ((generate_activity_heatmap [] [] 10 true).2).length = 10) :=
  ⟨by norm_num, claim_C1_amended 10 true (by norm_num)⟩

/-- C2 (counterexample): mismatched lengths do NOT raise: with
`timestamps = [0, 10]` and `counts = [5]` the function silently truncates via
`zip` and returns the well-defined value `[5, 0]`. -/
theorem claim_C2_counterexample :
    ([0, 10] : List ℤ).length ≠ ([5] : List ℤ).length
      ∧ (generate_activity_heatmap [0, 10] [5] 2 false).1 = [5, 0] := by
  constructor
  · norm_num
  · norm_num [generate_activity_heatmap, heatmap_step, bucket_index, ratTrunc,
      List.replicate, List.set]

/-- C2 (amended): no length/shape-mismatch error is raised; `zip` silently
drops unpaired elements, so the raw aggregates always sum to the sum of the
counts that are paired with a timestamp (the first `min` of the two lengths). -/
theorem claim_C2_amended (ts cs : List ℤ) (b : ℕ) (hb : 0 < b) :
    ((generate_activity_heatmap ts cs b false).1).sum
      = ((((ts.zip cs).map Prod.snd).sum : ℤ) : ℚ) :=
  heatmap_raw_sum ts cs b hb

/-- Witness for C2 (amended) at the mismatched input `[0, 10]` / `[5]`. -/
theorem claim_C2_witness :
    0 < 2
      ∧ ((generate_activity_heatmap [0, 10] [5] 2 false).1).sum
        = (((((([0, 10] : List ℤ)).zip ([5] : List ℤ)).map Prod.snd).sum : ℤ) : ℚ) :=
  ⟨by norm_num, claim_C2_amended [0, 10] [5] 2 (by norm_num)⟩

/-- C3 (counterexample): with `normalize=true`, `timestamps=[0,10]`,
`counts=[1,3]`, `buckets=2` the returned values are `[1/3, 1]`, and `1/3` is
not equal to its own rounding to 4 decimal places — so the values are not
rounded to 4 decimal places. -/
theorem claim_C3_counterexample :
    (generate_activity_heatmap [0, 10] [1, 3] 2 true).1 = [1 / 3, 1]
      ∧ round_to 4 ((1 : ℚ) / 3) ≠ (1 : ℚ) / 3 := by
  constructor
  · norm_num [generate_activity_heatmap, heatmap_step, bucket_index, ratTrunc,
      List.replicate, List.set]
  · norm_num [round_to, roundHalfEven]

/-- C3 (amended): with `normalize=true` the returned values are the exact,
unrounded quotients of the raw aggregates by `max(aggregates) or 1`; no
rounding to 4 decimal places is applied by this source variant. -/
theorem claim_C3_amended (ts cs : List ℤ) (b : ℕ) :
    (generate_activity_heatmap ts cs b true).1 =
      ((generate_activity_heatmap ts cs b false).1).map
        (fun v => v /
          (if ((generate_activity_heatmap ts cs b false).1).max?.getD 0 = 0 then 1
            else ((generate_activity_heatmap ts cs b false).1).max?.getD 0)) :=
  heatmap_normalized_eq_raw_div ts cs b

/-- C4 (counterexample): `calculate_risk_score` is NOT non-increasing in
liquidity over all inputs: moving from liquidity `0` to liquidity `1/100`
raises the score from `30.0` to `40.0` (the `log10` of a sub-unit liquidity is
negative, inflating the liquidity term above its `30` cap). -/
theorem claim_C4_counterexample :
    (0 : ℝ) ≤ 1 / 100
      ∧ calculate_risk_score 0 0 0 < calculate_risk_score 0 (1 / 100) 0 := by
  refine ⟨by norm_num, ?_⟩
  rw [calculate_risk_score_zero_liq, calculate_risk_score_hundredth_liq]
  norm_num

/-- C4 (amended): restricted to positive liquidity the claim holds: for every
`price_change_pct`, `flags_mask` and `0 < a ≤ b`,
`calculate_risk_score(p, b, m) ≤ calculate_risk_score(p, a, m)`. -/
theorem claim_C4_amended (p : ℝ) (m : ℕ) (a b : ℝ) (ha : 0 < a) (hab : a ≤ b) :
    calculate_risk_score p b m ≤ calculate_risk_score p a m :=
  calculate_risk_score_antitone_liquidity p m ha hab

/-- Witness for C4 (amended) at `a = 1`, `b = 10`. -/
theorem claim_C4_witness :
    (0 : ℝ) < 1 ∧ (1 : ℝ) ≤ 10
      ∧ calculate_risk_score 0 10 0 ≤ calculate_risk_score 0 1 0 :=
  ⟨by norm_num, by norm_num, claim_C4_amended 0 0 1 10 (by norm_num) (by norm_num)⟩

/-- C5: for every input and every positive `buckets`, the value sequence
returned by `generate_activity_heatmap` has length exactly `buckets`.
(`0 < buckets` because Python raises `ZeroDivisionError` for `buckets = 0`.) -/
theorem claim_C5 (ts cs : List ℤ) (b : ℕ) (n : Bool) (_hb : 0 < b) :
    ((generate_activity_heatmap ts cs b n).1).length = b :=
  heatmap_values_length ts cs b n

/-- Witness for C5 at empty input and `buckets = 10`. -/
theorem claim_C5_witness :
    0 < 10 ∧ ((generate_activity_heatmap [] [] 10 true).1).length = 10 :=
  ⟨by norm_num, claim_C5 [] [] 10 true (by norm_num)⟩

/-- C6: `calculate_risk_score` is the sum of the volatility, liquidity and
flag terms, rounded to 2 decimal places and clamped above at 100; the result
lies in `[0, 100]` for every input, `calculate_risk_score 50 0 0 = 80` and
`calculate_risk_score 0 1000000 0 = 0`. -/
theorem claim_C6 :
    (∀ (p l : ℝ) (m : ℕ), calculate_risk_score p l m
        = min (round_to 2 (vol_score p + liq_score l + flag_score m)) 100)
      ∧ (∀ (p l : ℝ) (m : ℕ),
          0 ≤ calculate_risk_score p l m ∧ calculate_risk_score p l m ≤ 100)
      ∧ calculate_risk_score 50 0 0 = 80
      ∧ calculate_risk_score 0 1000000 0 = 0 :=
  ⟨fun _ _ _ => rfl,
   fun p l m => ⟨calculate_risk_score_nonneg p l m, calculate_risk_score_le_100 p l m⟩,
   calculate_risk_score_fifty,
   calculate_risk_score_million⟩

/-- C7: `detect_volume_bursts` emits exactly the events described by the
spec's recurrence (emit at `i` iff `ratio ≥ threshold` and
`i - lastEventIndex ≥ minInterval`, `lastEventIndex` starting at
`-minInterval` and set to `i` after each emission); fewer than 2 elements
give an empty result; and with `minInterval = 2` two consecutive qualifying
jumps (`[4, 6, 9]`, threshold `3/2`) produce a single event. -/
theorem claim_C7 :
    (∀ (v : List ℚ) (t : ℚ) (m : ℤ),
        detect_volume_bursts v t m = (burst_indices_spec v t m).map (burst_event_at v))
      ∧ (∀ (v : List ℚ) (t : ℚ) (m : ℤ), v.length < 2 → detect_volume_bursts v t m = [])
      ∧ detect_volume_bursts [4, 6, 9] (3 / 2) 2
        = [⟨1, 4, 6, ((3 / 2 : ℚ) : WithTop ℚ)⟩] := by
  refine ⟨detect_volume_bursts_eq_spec, detect_volume_bursts_short, ?_⟩
  norm_num [detect_volume_bursts, burst_step, burst_event_at, burst_ratio,
    List.range', round_to, roundHalfEven, WithTop.coe_le_coe, WithTop.map_coe]

/-- Witness for C7: the short-input clause at the singleton `[5]`. -/
theorem claim_C7_witness :
    ([(5 : ℚ)]).length < 2 ∧ detect_volume_bursts [(5 : ℚ)] (3 / 2) 1 = [] :=
  ⟨by norm_num, claim_C7.2.1 [(5 : ℚ)] (3 / 2) 1 (by norm_num)⟩

/-- C8: `compute_shannon_entropy` returns `0.0` on the empty sequence and on
all-identical labels, `1.0` on `["a","b"]`, `2.0` on `["a","b","c","d"]`, and
is non-negative on every input. -/
theorem claim_C8 :
    compute_shannon_entropy [] = 0
      ∧ compute_shannon_entropy ["a", "a", "a"] = 0
      ∧ compute_shannon_entropy ["a", "b"] = 1
      ∧ compute_shannon_entropy ["a", "b", "c", "d"] = 2
      ∧ (∀ l : List String, 0 ≤ compute_shannon_entropy l) :=
  ⟨compute_shannon_entropy_nil, compute_shannon_entropy_aaa,
   compute_shannon_entropy_ab, compute_shannon_entropy_abcd,
   compute_shannon_entropy_nonneg⟩

/-- C9: for equal-length `timestamps` and `counts` (and positive `buckets`),
the raw non-normalized aggregates sum to the sum of the input counts. -/
theorem claim_C9 (ts cs : List ℤ) (b : ℕ) (hb : 0 < b) (hlen : ts.length = cs.length) :
    ((generate_activity_heatmap ts cs b false).1).sum = ((cs.sum : ℤ) : ℚ) := by
  rw [heatmap_raw_sum ts cs b hb, zip_map_snd_of_length_eq ts cs hlen]

/-- Witness for C9 at `timestamps = [0, 10]`, `counts = [1, 3]`, `buckets = 2`. -/
theorem claim_C9_witness :
    0 < 2 ∧ ([0, 10] : List ℤ).length = ([1, 3] : List ℤ).length
      ∧ ((generate_activity_heatmap [0, 10] [1, 3] 2 false).1).sum
        = (((([1, 3] : List ℤ).sum) : ℤ) : ℚ) :=
  ⟨by norm_num, by norm_num, claim_C9 [0, 10] [1, 3] 2 (by norm_num) (by norm_num)⟩

/-- C10: a zero (or non-positive) previous volume gives ratio `+inf = ⊤`,
which exceeds every finite threshold, so the position fires (subject only to
the `minInterval` spacing); in particular
`detect_volume_bursts [0, 0]` emits one event with `previous = 0`,
`current = 0`, `ratio = +inf`, although the volume did not increase. -/
theorem claim_C10 :
    (∀ (curr t : ℚ), (t : WithTop ℚ) ≤ burst_ratio 0 curr)
      ∧ detect_volume_bursts [0, 0] (3 / 2) 1 = [⟨1, 0, 0, ⊤⟩] := by
  constructor
  · intro curr t
    unfold burst_ratio
    rw [if_neg (lt_irrefl 0)]
    exact le_top
  · norm_num [detect_volume_bursts, burst_step, burst_event_at, burst_ratio,
      List.range']
